import Mathlib

/-!
Shallow embedding of the Game of Life engine of this repository
(`src/universe.rs`, `src/cells.rs`), together with theorems checking the
natural-language specification against it.

Machine integers: the Rust code stores `width`, `height` as `u32` and the
buffer index as `usize` (the target is wasm32, so `usize` is 32 bits and a
`u32 → usize` cast is lossless).  We embed `u32` values as `Nat` and make
every Rust `u32` multiplication/addition wrap explicitly modulo `2 ^ 32`,
matching the release-profile (wrapping) overflow semantics the deployed
artifact is built with.  Fallible operations (slice indexing, which panics
when out of range) are modelled with `Option`.
-/

set_option maxHeartbeats 1000000
set_option maxRecDepth 40000

/-- Embedding of `Cell` (src/cells.rs): a single-byte enum with exactly two states,
`Dead = 0` and `Alive = 1`. -/
inductive Cell where
  | Dead
  | Alive
deriving DecidableEq

/-- The numeric value of a cell (Rust `cell as u8`): `Dead = 0`, `Alive = 1`. -/
def Cell.toNat : Cell → Nat
  | Cell.Dead => 0
  | Cell.Alive => 1

/-- The modulus of Rust `u32` arithmetic. -/
def U32 : Nat := 4294967296

/-- Embedding of `Universe` (src/universe.rs): the grid dimensions (`u32`) and the flat
row-major cell buffer (`Vec<Cell>`). -/
structure Universe where
  width : Nat
  height : Nat
  cells : List Cell
deriving DecidableEq

/-- Embedding of `Universe::get_index`: `(row * self.width + column) as usize`.
Both `u32` operations wrap modulo `2 ^ 32`; the widening cast is lossless. -/
def Universe.get_index (u : Universe) (row column : Nat) : Nat :=
  (row * u.width % U32 + column) % U32

/-- Embedding of `Universe::new`: buffer of length `width * height` (a wrapping `u32`
product) seeded by the parity pattern `i % 2 == 0 || i % 7 == 0`. -/
def Universe.new (width height : Nat) : Universe :=
  { width := width
    height := height
    cells := (List.range (width * height % U32)).map fun i =>
      if i % 2 = 0 ∨ i % 7 = 0 then Cell.Alive else Cell.Dead }

/-- Embedding of `Universe::live_neighbor_count`: iterates `delta_row` over
`[height - 1, 0, 1]` and `delta_col` over `[width - 1, 0, 1]`, skips the
pair whose two deltas are both `0`, and sums the numeric values of the
cells at `((row + delta_row) % height, (column + delta_col) % width)`.
The `u32` additions wrap modulo `2 ^ 32`.  The accumulator is a `u8` in
Rust but never exceeds `8`, so `Nat` is faithful.  Out-of-range buffer
access panics in Rust; the `getD` default is only reachable on a universe
whose buffer is shorter than `width * height`.  The function is private
and its only caller (`tick`) invokes it with `width > 0` and `height > 0`;
for a zero dimension the Rust code panics (`height - 1` underflows in
checked builds, and the remainder by zero panics in any build), so the
value computed here in that unreachable territory is not meaningful. -/
def Universe.live_neighbor_count (u : Universe) (row column : Nat) : Nat :=
  [u.height - 1, 0, 1].foldl (fun count delta_row =>
    [u.width - 1, 0, 1].foldl (fun count delta_col =>
      if delta_row = 0 ∧ delta_col = 0 then
        count
      else
        count +
          (u.cells.getD
            (u.get_index ((row + delta_row) % U32 % u.height)
              ((column + delta_col) % U32 % u.width)) Cell.Dead).toNat)
      count) 0

/-- The `match (cell, live_neighbors)` in `Universe::tick`, arm by arm:
underpopulation, stable, overpopulation, reproduction, otherwise. -/
def transition (cell : Cell) (live_neighbors : Nat) : Cell :=
  if cell = Cell.Alive ∧ live_neighbors < 2 then Cell.Dead
  else if cell = Cell.Alive ∧ (live_neighbors = 2 ∨ live_neighbors = 3) then Cell.Alive
  else if cell = Cell.Alive ∧ live_neighbors > 3 then Cell.Dead
  else if cell = Cell.Dead ∧ live_neighbors = 3 then Cell.Alive
  else cell

/-- Embedding of `Universe::tick`: clones the buffer into `next`, then for every
`(row, col)` in row-major order reads the pre-tick cell and its pre-tick
live neighbor count from `self.cells` and writes the transition into
`next`, and finally replaces the buffer with `next` in one assignment. -/
def Universe.tick (u : Universe) : Universe :=
  { u with
    cells := (List.range u.height).foldl (fun next row =>
      (List.range u.width).foldl (fun next col =>
        next.set (u.get_index row col)
          (transition (u.cells.getD (u.get_index row col) Cell.Dead)
            (u.live_neighbor_count row col))) next) u.cells }

/-- Embedding of `Universe::set_width`: stores the new width and resets the buffer to
all-`Dead` with length `width * self.height` (a wrapping `u32` product). -/
def Universe.set_width (u : Universe) (width : Nat) : Universe :=
  { u with
    width := width
    cells := (List.range (width * u.height % U32)).map fun _ => Cell.Dead }

/-- Embedding of `Universe::set_height`: stores the new height and resets the buffer to
all-`Dead` with length `self.width * height` (a wrapping `u32` product). -/
def Universe.set_height (u : Universe) (height : Nat) : Universe :=
  { u with
    height := height
    cells := (List.range (u.width * height % U32)).map fun _ => Cell.Dead }

/-- Embedding of `Universe::set_cells`: for each `(row, col)` in order, computes
`get_index` and assigns `Cell::Alive` through `self.cells[idx]`, which
panics (modelled as `none`) when the flattened index is out of range. -/
def Universe.set_cells (u : Universe) (cells : List (Nat × Nat)) : Option Universe :=
  cells.foldlM (fun u p =>
    if u.get_index p.1 p.2 < u.cells.length then
      some { u with cells := u.cells.set (u.get_index p.1 p.2) Cell.Alive }
    else
      none) u

/-- The glyph written by `impl fmt::Display for Universe` for one cell. -/
def glyph (cell : Cell) : Char :=
  if cell = Cell.Dead then '◻' else '◼'

/-- Rust `slice::chunks`: splits a slice into consecutive chunks of `w`
elements (the last chunk may be shorter).  `chunks(0)` panics in Rust; the
`w = 0` branch below is unreachable from `Display`, whose caller contract
requires `width > 0`. -/
def chunksOf (w : Nat) (l : List Cell) : List (List Cell) :=
  if h : w = 0 ∨ l.isEmpty then []
  else l.take w :: chunksOf w (l.drop w)
termination_by l.length
decreasing_by
  simp only [List.length_drop]
  rcases Nat.eq_zero_or_pos w with hw | hw
  · exact absurd (Or.inl hw) h
  · have hl : l ≠ [] := fun he => h (Or.inr (by simp [he]))
    have : 0 < l.length := List.length_pos.mpr hl
    omega

/-- Embedding of `impl fmt::Display for Universe` (used by
`Universe::render`): writes
one glyph per cell, row by row (chunks of `width`), with a `"\n"` after
every row. -/
def Universe.display (u : Universe) : String :=
  String.join ((chunksOf u.width u.cells).map fun line =>
    String.mk (line.map glyph) ++ "\n")

/-- Embedding of `Universe::render`: `self.to_string()`, the `Display` output. -/
def Universe.render (u : Universe) : String :=
  u.display

/-- The specification's neighbor count, written from the spec's words: the
number of `Alive` cells among the 8 toroidal neighbors
`((row + dr) mod height, (col + dc) mod width)` for `(dr, dc)` ranging
over `{-1, 0, +1} × {-1, 0, +1}` excluding `(0, 0)` (counted with
multiplicity, one term per offset pair). -/
def toroidal_count (u : Universe) (row col : Nat) : Nat :=
  ([-1, 0, 1] : List Int).foldl (fun count dr =>
    ([-1, 0, 1] : List Int).foldl (fun count dc =>
      if dr = 0 ∧ dc = 0 then
        count
      else
        count +
          (u.cells.getD
            ((((row : Int) + dr) % (u.height : Int)).toNat * u.width +
              (((col : Int) + dc) % (u.width : Int)).toNat) Cell.Dead).toNat)
      count) 0

/-- The buffer produced by a sequence of `List.set` writes, the functional
form of the write loop in `Universe::tick`. -/
def writeList (ws : List (Nat × Cell)) (l : List Cell) : List Cell :=
  ws.foldl (fun acc p => acc.set p.1 p.2) l

/-- The row-major sequence of writes performed by the loop in
`Universe::tick`: for every `(row, col)`, the target index and the value
computed from the pre-tick buffer. -/
def tickWrites (u : Universe) : List (Nat × Cell) :=
  (List.range u.height).flatMap fun row =>
    (List.range u.width).map fun col =>
      (u.get_index row col,
        transition (u.cells.getD (u.get_index row col) Cell.Dead)
          (u.live_neighbor_count row col))

/-- An 8x8 all-`Dead` universe (a resize wipes the seeded pattern). -/
def base8 : Universe := (Universe.new 8 8).set_width 8

/-- A 3x3 universe that is all-`Dead` except cell `(0, 0)`. -/
def corner3 : Universe :=
  ((((Universe.new 3 3).set_width 3).set_cells [(0, 0)]).getD
    ((Universe.new 3 3).set_width 3))

/-- A fresh all-`Dead` 5x5 universe. -/
def dead5 : Universe := (Universe.new 5 5).set_width 5

/-! ### Shared lemmas about the embedded operations -/

theorem writeList_nil (l : List Cell) : writeList [] l = l := rfl

theorem writeList_cons (p : Nat × Cell) (ws : List (Nat × Cell)) (l : List Cell) :
    writeList (p :: ws) l = writeList ws (l.set p.1 p.2) := rfl

theorem writeList_length (ws : List (Nat × Cell)) (l : List Cell) :
    (writeList ws l).length = l.length := by
  induction ws generalizing l with
  | nil => rfl
  | cons p ws ih => rw [writeList_cons, ih, List.length_set]

theorem getD_writeList_not_written (ws : List (Nat × Cell)) (l : List Cell)
    (i : Nat) (hni : ∀ p ∈ ws, p.1 ≠ i) :
    (writeList ws l).getD i Cell.Dead = l.getD i Cell.Dead := by
  induction ws generalizing l with
  | nil => rfl
  | cons p ws ih =>
    rw [writeList_cons, ih _ fun q hq => hni q (List.mem_cons_of_mem _ hq)]
    have hne : p.1 ≠ i := hni p (List.mem_cons_self _ _)
    rw [List.getD_eq_getElem?_getD, List.getD_eq_getElem?_getD,
      List.getElem?_set_ne hne]

theorem getD_writeList_written (ws : List (Nat × Cell)) (l : List Cell)
    (i : Nat) (v : Cell) (hmem : (i, v) ∈ ws)
    (hsame : ∀ p ∈ ws, p.1 = i → p.2 = v) (hlen : i < l.length) :
    (writeList ws l).getD i Cell.Dead = v := by
  induction ws generalizing l with
  | nil => cases hmem
  | cons p ws ih =>
    rw [writeList_cons]
    by_cases hex : ∃ q ∈ ws, q.1 = i
    · obtain ⟨q, hq, hqi⟩ := hex
      have hqv : q.2 = v := hsame q (List.mem_cons_of_mem _ hq) hqi
      have hmem' : (i, v) ∈ ws := by
        have : q = (i, v) := Prod.ext hqi hqv
        exact this ▸ hq
      exact ih (l.set p.1 p.2) hmem'
        (fun q' hq' => hsame q' (List.mem_cons_of_mem _ hq'))
        (by rw [List.length_set]; exact hlen)
    · push_neg at hex
      rw [getD_writeList_not_written ws _ i hex]
      rcases List.mem_cons.mp hmem with h | h
      · have hp1 : p.1 = i := by rw [← h]
        have hp2 : p.2 = v := by rw [← h]
        rw [← hp1, ← hp2, List.getD_eq_getElem?_getD,
          List.getElem?_set_self (hp1 ▸ hlen)]
        rfl
      · exact absurd rfl (hex (i, v) h)

theorem foldl_flatMap {α β γ : Type} (l : List α) (f : α → List β)
    (g : γ → β → γ) (init : γ) :
    (l.flatMap f).foldl g init =
      l.foldl (fun acc a => (f a).foldl g acc) init := by
  induction l generalizing init with
  | nil => rfl
  | cons a l ih => rw [List.flatMap_cons, List.foldl_append, List.foldl_cons, ih]

theorem tick_cells_eq (u : Universe) :
    (u.tick).cells = writeList (tickWrites u) u.cells := by
  unfold Universe.tick tickWrites writeList
  rw [foldl_flatMap]
  simp only [List.foldl_map]

theorem rowmajor_lt (w h row col : Nat) (hr : row < h) (hc : col < w) :
    row * w + col < w * h := by
  have h1 : row * w + col < (row + 1) * w := by
    rw [Nat.succ_mul]
    omega
  have h2 : (row + 1) * w ≤ h * w := Nat.mul_le_mul_right w hr
  have h3 : h * w = w * h := Nat.mul_comm h w
  omega

theorem Universe.get_index_eq (u : Universe) (hfit : u.width * u.height < U32)
    (row col : Nat) (hr : row < u.height) (hc : col < u.width) :
    u.get_index row col = row * u.width + col := by
  have h1 : row * u.width + col < u.width * u.height :=
    rowmajor_lt u.width u.height row col hr hc
  unfold Universe.get_index
  rw [Nat.mod_eq_of_lt (show row * u.width < U32 by omega),
    Nat.mod_eq_of_lt (show row * u.width + col < U32 by omega)]

theorem rowmajor_inj (w : Nat) {r1 c1 r2 c2 : Nat} (hc1 : c1 < w) (hc2 : c2 < w)
    (h : r1 * w + c1 = r2 * w + c2) : r1 = r2 ∧ c1 = c2 := by
  have hr : r1 = r2 := by
    rcases Nat.lt_trichotomy r1 r2 with h' | h' | h'
    · exfalso
      have : (r1 + 1) * w ≤ r2 * w := Nat.mul_le_mul_right w h'
      rw [Nat.succ_mul] at this
      omega
    · exact h'
    · exfalso
      have : (r2 + 1) * w ≤ r1 * w := Nat.mul_le_mul_right w h'
      rw [Nat.succ_mul] at this
      omega
  subst hr
  exact ⟨rfl, by omega⟩

theorem mem_tickWrites (u : Universe) (p : Nat × Cell) :
    p ∈ tickWrites u ↔ ∃ row col, row < u.height ∧ col < u.width ∧
      p = (u.get_index row col,
        transition (u.cells.getD (u.get_index row col) Cell.Dead)
          (u.live_neighbor_count row col)) := by
  unfold tickWrites
  simp only [List.mem_flatMap, List.mem_map, List.mem_range]
  constructor
  · rintro ⟨row, hrow, col, hcol, hp⟩
    exact ⟨row, col, hrow, hcol, hp.symm⟩
  · rintro ⟨row, col, hrow, hcol, hp⟩
    exact ⟨row, hrow, col, hcol, hp.symm⟩

/-- The value of the post-tick buffer at an in-range row-major index. -/
theorem tick_getD (u : Universe) (hlen : u.cells.length = u.width * u.height)
    (hfit : u.width * u.height < U32) (row col : Nat)
    (hr : row < u.height) (hc : col < u.width) :
    (u.tick).cells.getD (row * u.width + col) Cell.Dead =
      transition (u.cells.getD (row * u.width + col) Cell.Dead)
        (u.live_neighbor_count row col) := by
  rw [tick_cells_eq]
  have hidx : u.get_index row col = row * u.width + col :=
    u.get_index_eq hfit row col hr hc
  apply getD_writeList_written
  · rw [mem_tickWrites]
    exact ⟨row, col, hr, hc, by rw [hidx]⟩
  · intro q hq hq1
    rw [mem_tickWrites] at hq
    obtain ⟨r', c', hr', hc', hq'⟩ := hq
    have hidx' : u.get_index r' c' = r' * u.width + c' :=
      u.get_index_eq hfit r' c' hr' hc'
    have h1 : q.1 = r' * u.width + c' := by rw [hq', hidx']
    have heq : r' * u.width + c' = row * u.width + col := by
      rw [← h1, hq1]
    obtain ⟨hre, hce⟩ := rowmajor_inj u.width hc' hc heq
    subst hre; subst hce
    rw [hq', hidx']
  · rw [hlen]
    exact rowmajor_lt u.width u.height row col hr hc

/-- Full characterization of `set_cells` on in-range coordinates: it
succeeds, preserves the dimensions and the buffer length, and sets exactly
the addressed row-major indices to `Alive`. -/
theorem set_cells_spec (u : Universe) (hlen : u.cells.length = u.width * u.height)
    (hfit : u.width * u.height < U32) (cs : List (Nat × Nat))
    (hin : ∀ p ∈ cs, p.1 < u.height ∧ p.2 < u.width) :
    ∃ u', u.set_cells cs = some u' ∧ u'.width = u.width ∧ u'.height = u.height ∧
      u'.cells.length = u.cells.length ∧
      ∀ i, u'.cells.getD i Cell.Dead =
        if ∃ p ∈ cs, p.1 * u.width + p.2 = i then Cell.Alive
        else u.cells.getD i Cell.Dead := by
  induction cs generalizing u with
  | nil =>
    refine ⟨u, rfl, rfl, rfl, rfl, fun i => ?_⟩
    rw [if_neg]
    rintro ⟨p, hp, -⟩
    exact List.not_mem_nil p hp
  | cons p ps ih =>
    obtain ⟨hr, hc⟩ := hin p (List.mem_cons_self _ _)
    have hidx : u.get_index p.1 p.2 = p.1 * u.width + p.2 :=
      u.get_index_eq hfit p.1 p.2 hr hc
    have hlt : u.get_index p.1 p.2 < u.cells.length := by
      rw [hidx, hlen]
      exact rowmajor_lt _ _ _ _ hr hc
    have hstep : u.set_cells (p :: ps) =
        Universe.set_cells
          { u with cells := u.cells.set (u.get_index p.1 p.2) Cell.Alive } ps := by
      unfold Universe.set_cells
      rw [List.foldlM_cons, if_pos hlt]
      rfl
    obtain ⟨u', hs, hw', hh', hl', hget⟩ :=
      ih { u with cells := u.cells.set (u.get_index p.1 p.2) Cell.Alive }
        (by simp [List.length_set, hlen]) hfit
        (fun q hq => hin q (List.mem_cons_of_mem _ hq))
    refine ⟨u', by rw [hstep]; exact hs, hw', hh',
      by rw [hl']; simp [List.length_set], fun i => ?_⟩
    rw [hget i]
    have hbase :
        (u.cells.set (u.get_index p.1 p.2) Cell.Alive).getD i Cell.Dead =
          if p.1 * u.width + p.2 = i then Cell.Alive
          else u.cells.getD i Cell.Dead := by
      by_cases he : p.1 * u.width + p.2 = i
      · rw [if_pos he, List.getD_eq_getElem?_getD, hidx, he,
          List.getElem?_set_self (by rw [← he, ← hidx]; exact hlt)]
        rfl
      · rw [if_neg he, List.getD_eq_getElem?_getD, List.getD_eq_getElem?_getD,
          List.getElem?_set_ne (by rw [hidx]; exact he)]
    by_cases hex : ∃ q ∈ ps, q.1 * u.width + q.2 = i
    · rw [if_pos hex, if_pos]
      obtain ⟨q, hq, hqe⟩ := hex
      exact ⟨q, List.mem_cons_of_mem _ hq, hqe⟩
    · rw [if_neg hex, hbase]
      by_cases he : p.1 * u.width + p.2 = i
      · rw [if_pos he, if_pos ⟨p, List.mem_cons_self _ _, he⟩]
      · rw [if_neg he, if_neg]
        rintro ⟨q, hq, hqe⟩
        rcases List.mem_cons.mp hq with h | h
        · exact he (h ▸ hqe)
        · exact hex ⟨q, h, hqe⟩

/-! ### Claim theorems -/

/-- C1: for every representable universe with positive dimensions and
`cells.length = width * height`, `tick` preserves the buffer length and
replaces the cell at each `(row, col)` with the transition rule applied to
the pre-tick cell and its pre-tick live neighbor count; both arguments of
`transition` are read from the pre-tick universe `u`, so every
next-generation value is computed exclusively from the pre-tick buffer. -/
theorem claim_C1_tick_transition (u : Universe)
    (hw : 0 < u.width) (hh : 0 < u.height)
    (hlen : u.cells.length = u.width * u.height)
    (hfit : u.width * u.height < U32) :
    (u.tick).cells.length = u.cells.length ∧
    ∀ row col, row < u.height → col < u.width →
      (u.tick).cells.getD (row * u.width + col) Cell.Dead =
        transition (u.cells.getD (row * u.width + col) Cell.Dead)
          (u.live_neighbor_count row col) := by
  refine ⟨?_, fun row col hr hc => tick_getD u hlen hfit row col hr hc⟩
  rw [tick_cells_eq, writeList_length]

/-- Witness for C1 at the seeded 4x4 universe and cell `(1, 2)`. -/
theorem claim_C1_witness :
    ((Universe.new 4 4).tick.cells.length = (Universe.new 4 4).cells.length) ∧
    (Universe.new 4 4).tick.cells.getD (1 * 4 + 2) Cell.Dead =
      transition ((Universe.new 4 4).cells.getD (1 * 4 + 2) Cell.Dead)
        ((Universe.new 4 4).live_neighbor_count 1 2) := by
  have h := claim_C1_tick_transition (Universe.new 4 4)
    (by decide) (by decide) (by decide) (by decide)
  exact ⟨h.1, h.2 1 2 (by decide) (by decide)⟩

/-- C3 counterexample: `new(65536, 65536)` has positive dimensions, yet the
buffer length immediately after construction is the wrapped `u32` product
`0`, not `65536 * 65536`. -/
theorem claim_C3_counterexample :
    0 < (Universe.new 65536 65536).width ∧
    0 < (Universe.new 65536 65536).height ∧
    (Universe.new 65536 65536).cells.length ≠ 65536 * 65536 := by decide

/-- C3 (amended): the invariant `cells.length = width * height` holds after
construction and after each resize whenever the corresponding product does
not overflow `u32`, and is preserved by `tick` and by in-range `set_cells`
on representable universes. -/
theorem claim_C3_length_invariant (w h : Nat) (u : Universe) (cs : List (Nat × Nat)) :
    (w * h < U32 → (Universe.new w h).cells.length = w * h) ∧
    (u.cells.length = u.width * u.height → u.width * u.height < U32 →
      (u.tick).cells.length = u.width * u.height) ∧
    (w * u.height < U32 → (u.set_width w).cells.length = w * u.height) ∧
    (u.width * h < U32 → (u.set_height h).cells.length = u.width * h) ∧
    (u.cells.length = u.width * u.height → u.width * u.height < U32 →
      (∀ p ∈ cs, p.1 < u.height ∧ p.2 < u.width) →
      ∃ u', u.set_cells cs = some u' ∧ u'.cells.length = u.width * u.height) := by
  refine ⟨fun hov => ?_, fun hlen hfit => ?_, fun hov => ?_, fun hov => ?_,
    fun hlen hfit hin => ?_⟩
  · simp [Universe.new, Nat.mod_eq_of_lt hov]
  · rw [tick_cells_eq, writeList_length, hlen]
  · simp [Universe.set_width, Nat.mod_eq_of_lt hov]
  · simp [Universe.set_height, Nat.mod_eq_of_lt hov]
  · obtain ⟨u', hs, -, -, hl, -⟩ := set_cells_spec u hlen hfit cs hin
    exact ⟨u', hs, by rw [hl, hlen]⟩

/-- Witness for C3 at small concrete inputs. -/
theorem claim_C3_witness :
    (Universe.new 3 4).cells.length = 3 * 4 ∧
    ((Universe.new 3 4).tick.cells.length = 3 * 4) ∧
    ((Universe.new 3 4).set_width 5).cells.length = 5 * 4 ∧
    ((Universe.new 3 4).set_height 5).cells.length = 3 * 5 ∧
    ∃ u', (Universe.new 3 4).set_cells [(1, 2)] = some u' ∧
      u'.cells.length = 3 * 4 := by
  have h := claim_C3_length_invariant 3 4 (Universe.new 3 4) [(1, 2)]
  have h5 := claim_C3_length_invariant 5 5 (Universe.new 3 4) []
  exact ⟨h.1 (by decide), h.2.1 (by decide) (by decide),
    h5.2.2.1 (by decide), h5.2.2.2.1 (by decide),
    h.2.2.2.2 (by decide) (by decide) (by decide)⟩

/-- C4 counterexample: on a fresh all-`Dead` 5x5 universe, the pair
`(1, 7)` has an out-of-range column (`7 ≥ width = 5`), yet `set_cells`
does not fail: it succeeds and silently sets the cell at flattened index
`1 * 5 + 7 = 12`, which is `(2, 2)` — a cell in a different row. -/
theorem claim_C4_counterexample :
    dead5.width = 5 ∧
    (dead5.set_cells [(1, 7)]).isSome = true ∧
    (dead5.set_cells [(1, 7)]).map (fun u => u.cells.getD 12 Cell.Dead) =
      some Cell.Alive := by decide

/-- C4 (amended): `set_cells` performs no per-coordinate bounds check: a
pair whose flattened index `get_index(row, col)` is within the buffer is
applied silently (even when `col ≥ width`, landing in a different row),
and the call fails (an index-out-of-range panic, modelled as `none`) only
when the flattened index reaches past the end of the buffer. -/
theorem claim_C4_set_cells_unchecked (u : Universe) (r c : Nat) :
    (u.get_index r c < u.cells.length →
      u.set_cells [(r, c)] =
        some { u with cells := u.cells.set (u.get_index r c) Cell.Alive }) ∧
    (u.cells.length ≤ u.get_index r c → u.set_cells [(r, c)] = none) := by
  constructor <;> intro h <;>
    simp [Universe.set_cells, List.foldlM_cons, List.foldlM_nil, h, Nat.not_lt.mpr]

/-- Witness for C4: an in-range flattened index is written; an index past
the buffer end makes the call fail. -/
theorem claim_C4_witness :
    dead5.set_cells [(1, 7)] =
      some { dead5 with cells := dead5.cells.set (dead5.get_index 1 7) Cell.Alive } ∧
    dead5.set_cells [(0, 26)] = none :=
  ⟨(claim_C4_set_cells_unchecked dead5 1 7).1 (by decide),
    (claim_C4_set_cells_unchecked dead5 0 26).2 (by decide)⟩

theorem foldl_const {α β : Type} (l : List α) (b : β) :
    l.foldl (fun acc _ => acc) b = b := by
  induction l generalizing b with
  | nil => rfl
  | cons a l ih => rw [List.foldl_cons]; exact ih b

/-- C5 counterexample: `new(0, 3)` neither rejects nor clamps — the
returned universe keeps `width = 0` (so no minimum of 1 is enforced) and
carries a zero-length buffer; `new` is total, so no explicit error is
produced either. -/
theorem claim_C5_counterexample :
    ¬(1 ≤ (Universe.new 0 3).width) ∧ (Universe.new 0 3).cells.length = 0 := by
  decide

/-- C5 (amended): the implementation has no zero-dimension guard:
`new(0, h)` and `new(w, 0)` store the zero dimension unchanged with an
empty buffer.  Nevertheless, `tick` on any universe with a zero dimension
iterates over an empty row or column range, performs no cell update and no
neighbor count, and returns the universe unchanged — so no modulo-by-zero
is ever reached through `tick`. -/
theorem claim_C5_no_guard (w h : Nat) (u : Universe) :
    ((Universe.new 0 h).width = 0 ∧ (Universe.new 0 h).cells.length = 0) ∧
    ((Universe.new w 0).height = 0 ∧ (Universe.new w 0).cells.length = 0) ∧
    (u.width = 0 ∨ u.height = 0 → u.tick = u) := by
  refine ⟨⟨rfl, by simp [Universe.new]⟩, ⟨rfl, by simp [Universe.new]⟩, fun hz => ?_⟩
  obtain ⟨w', h', cs'⟩ := u
  simp only [Universe.tick, Universe.mk.injEq, true_and]
  rcases hz with hw | hh
  · simp only at hw
    subst hw
    simp only [List.range_zero, List.foldl_nil]
    exact foldl_const _ _
  · simp only at hh
    subst hh
    simp only [List.range_zero, List.foldl_nil]

/-- Witness for C5: no clamping at `(0, 3)`, and `tick` is the identity on
the degenerate `3 x 0` universe. -/
theorem claim_C5_witness :
    (Universe.new 0 3).width = 0 ∧ (Universe.new 3 0).tick = Universe.new 3 0 :=
  ⟨(claim_C5_no_guard 3 3 (Universe.new 3 0)).1.1,
    (claim_C5_no_guard 3 3 (Universe.new 3 0)).2.2 (Or.inr rfl)⟩

/-- C6 counterexample: `new(65536, 65536)` overflows `width * height`, and
the construction is not rejected: it silently produces a universe whose
buffer length is the truncated product `65536 * 65536 mod 2^32 = 0`. -/
theorem claim_C6_counterexample :
    (Universe.new 65536 65536).width = 65536 ∧
    (Universe.new 65536 65536).height = 65536 ∧
    (Universe.new 65536 65536).cells.length = 65536 * 65536 % U32 ∧
    65536 * 65536 % U32 = 0 := by decide

/-- C6 (amended): `new` performs no overflow detection — for every `w` and
`h` the buffer length is the wrapped `u32` product `w * h mod 2^32`, so an
overflowing product silently yields a truncated buffer. -/
theorem claim_C6_new_wraps (w h : Nat) :
    (Universe.new w h).cells.length = w * h % U32 := by
  simp [Universe.new]

/-- C7 counterexample: `set_width(2^31)` on a 2x2 universe leaves
`height = 2` but produces a buffer of wrapped length
`2^31 * 2 mod 2^32 = 0`, not `2^31 * 2`. -/
theorem claim_C7_counterexample :
    ((Universe.new 2 2).set_width 2147483648).height = 2 ∧
    ((Universe.new 2 2).set_width 2147483648).cells.length ≠ 2147483648 * 2 := by
  decide

/-- C7 (amended): `set_width w` keeps the height, stores the new width and
resets the whole buffer to all-`Dead` with length `w * height mod 2^32`
(equal to `w * height` whenever that product does not overflow `u32`), and
symmetrically for `set_height`; no live cell survives a resize. -/
theorem claim_C7_resize_resets (u : Universe) (w h : Nat) :
    ((u.set_width w).width = w ∧ (u.set_width w).height = u.height ∧
      (u.set_width w).cells = List.replicate (w * u.height % U32) Cell.Dead) ∧
    ((u.set_height h).width = u.width ∧ (u.set_height h).height = h ∧
      (u.set_height h).cells = List.replicate (u.width * h % U32) Cell.Dead) := by
  refine ⟨⟨rfl, rfl, ?_⟩, ⟨rfl, rfl, ?_⟩⟩ <;>
    simp [Universe.set_width, Universe.set_height, List.map_const']

/-- C8: on the all-`Dead` 8x8 universe, the standard 5-cell glider at
`(1,2), (2,3), (3,1), (3,2), (3,3)` reappears after exactly 4 ticks as the
same shape translated by `(+1, +1)`. -/
theorem claim_C8_glider :
    Option.map (fun u => u.tick.tick.tick.tick)
      (base8.set_cells [(1, 2), (2, 3), (3, 1), (3, 2), (3, 3)]) =
    base8.set_cells [(2, 3), (3, 4), (4, 2), (4, 3), (4, 4)] := by decide

/-- C9: on a representable universe, `set_cells` with in-range coordinates
succeeds, keeps the dimensions and buffer length, sets exactly the
addressed row-major indices `row * width + col` to `Alive`, and leaves
every other cell unchanged. -/
theorem claim_C9_set_cells_frame (u : Universe)
    (hlen : u.cells.length = u.width * u.height)
    (hfit : u.width * u.height < U32) (cs : List (Nat × Nat))
    (hin : ∀ p ∈ cs, p.1 < u.height ∧ p.2 < u.width) :
    ∃ u', u.set_cells cs = some u' ∧ u'.width = u.width ∧ u'.height = u.height ∧
      u'.cells.length = u.cells.length ∧
      ∀ i, u'.cells.getD i Cell.Dead =
        if ∃ p ∈ cs, p.1 * u.width + p.2 = i then Cell.Alive
        else u.cells.getD i Cell.Dead :=
  set_cells_spec u hlen hfit cs hin

/-- Witness for C9: `set_cells [(1, 2)]` on the fresh all-`Dead` 5x5
universe sets exactly index `7`; index `6` stays `Dead`. -/
theorem claim_C9_witness :
    ∃ u', dead5.set_cells [(1, 2)] = some u' ∧
      u'.cells.getD 7 Cell.Dead = Cell.Alive ∧
      u'.cells.getD 6 Cell.Dead = Cell.Dead := by
  obtain ⟨u', hs, -, -, -, hget⟩ :=
    claim_C9_set_cells_frame dead5 (by decide) (by decide) [(1, 2)] (by decide)
  refine ⟨u', hs, ?_, ?_⟩
  · have h7 := hget 7
    rw [if_pos ⟨(1, 2), List.mem_cons_self _ _, by decide⟩] at h7
    exact h7
  · have h6 := hget 6
    rw [if_neg (by decide)] at h6
    rw [h6]
    decide

theorem chunksOf_eq_ranges (w : Nat) (hw : 0 < w) :
    ∀ (h : Nat) (l : List Cell), l.length = w * h →
      chunksOf w l = (List.range h).map fun r => (l.drop (r * w)).take w := by
  intro h
  induction h with
  | zero =>
    intro l hl
    have hl0 : l = [] := List.length_eq_zero.mp (by omega)
    subst hl0
    rw [chunksOf]
    simp
  | succ h ih =>
    intro l hl
    have hne : l ≠ [] := by
      intro he
      rw [he] at hl
      simp only [List.length_nil] at hl
      rcases Nat.mul_eq_zero.mp hl.symm with h0 | h0
      · omega
      · omega
    rw [chunksOf, dif_neg]
    · rw [ih (l.drop w) (by simp only [List.length_drop, hl, Nat.mul_succ]; omega)]
      rw [List.range_succ_eq_map, List.map_cons, List.map_map]
      congr 1
      · rw [Nat.zero_mul, List.drop_zero]
      · apply List.map_congr_left
        intro r _
        simp only [Function.comp_apply]
        rw [List.drop_drop]
        congr 2
        rw [Nat.succ_mul]
        omega
    · rintro (h0 | h0)
      · omega
      · exact hne (by simpa using h0)

theorem drop_take_getD (l : List Cell) (a w : Nat) (hle : a + w ≤ l.length) :
    (l.drop a).take w = (List.range w).map fun c => l.getD (a + c) Cell.Dead := by
  apply List.ext_getElem
  · simp only [List.length_take, List.length_drop, List.length_map, List.length_range]
    omega
  · intro n h1 h2
    rw [List.getElem_take, List.getElem_drop, List.getElem_map, List.getElem_range,
      List.getD_eq_getElem?_getD,
      List.getElem?_eq_getElem (show a + n < l.length by
        simp only [List.length_take, List.length_drop] at h1
        omega)]
    rfl

/-- C10: on a grid with positive dimensions and a matching buffer,
`render` is exactly one line per row — one glyph per cell, `◻` for `Dead`
and `◼` for `Alive` (via `glyph`) — with every row, the final one
included, terminated by a newline. -/
theorem claim_C10_render (u : Universe) (hw : 0 < u.width) (hh : 0 < u.height)
    (hlen : u.cells.length = u.width * u.height) :
    u.render = String.join ((List.range u.height).map fun r =>
      String.mk ((List.range u.width).map fun c =>
        glyph (u.cells.getD (r * u.width + c) Cell.Dead)) ++ "\n") := by
  unfold Universe.render Universe.display
  rw [chunksOf_eq_ranges u.width hw u.height u.cells hlen, List.map_map]
  congr 1
  apply List.map_congr_left
  intro r hr
  rw [List.mem_range] at hr
  simp only [Function.comp_apply]
  rw [drop_take_getD u.cells (r * u.width) u.width (by
      have h1 : (r + 1) * u.width ≤ u.height * u.width := Nat.mul_le_mul_right _ hr
      rw [Nat.succ_mul] at h1
      have h2 : u.width * u.height = u.height * u.width := Nat.mul_comm _ _
      rw [hlen, h2]
      omega),
    List.map_map]
  rfl

/-- Witness for C10: the 2x2 all-`Dead` universe renders to the exact
string required by the specification. -/
theorem claim_C10_witness :
    ((Universe.new 2 2).set_width 2).render = "◻◻\n◻◻\n" := by
  rw [claim_C10_render ((Universe.new 2 2).set_width 2)
    (by decide) (by decide) (by decide)]
  decide

theorem toNat_emod_sub_one (a m : Nat) (hm : 0 < m) (ha : a < m) :
    (((a : Int) + -1) % (m : Int)).toNat = (a + (m - 1)) % m := by
  rcases a with _ | a'
  · have h1 : ((-1 : Int) + (m : Int) * 1) % (m : Int) = (-1 : Int) % (m : Int) :=
      Int.add_mul_emod_self_left (-1) (m : Int) 1
    rw [mul_one] at h1
    have h2 : ((-1 : Int) + (m : Int)) % (m : Int) = (-1 : Int) + (m : Int) :=
      Int.emod_eq_of_lt (by omega) (by omega)
    have h6 : m - 1 < m := by omega
    rw [Nat.cast_zero, zero_add, ← h1, h2, Nat.zero_add, Nat.mod_eq_of_lt h6]
    omega
  · have h3 : ((a' + 1 : Nat) : Int) + -1 = (a' : Int) := by push_cast; ring
    have h4 : a' + 1 + (m - 1) = a' + m := by omega
    have h5 : a' < m := by omega
    rw [h3, ← Int.ofNat_emod, Int.toNat_ofNat, h4, Nat.add_mod_right,
      Nat.mod_eq_of_lt h5]

theorem toNat_emod_add_zero (a m : Nat) :
    (((a : Int) + 0) % (m : Int)).toNat = (a + 0) % m := by
  rw [add_zero, Nat.add_zero, ← Int.ofNat_emod, Int.toNat_ofNat]

theorem toNat_emod_add_one (a m : Nat) :
    (((a : Int) + 1) % (m : Int)).toNat = (a + 1) % m := by
  rw [show ((a : Int) + 1) = ((a + 1 : Nat) : Int) by push_cast; ring,
    ← Int.ofNat_emod, Int.toNat_ofNat]

/-- C2 counterexample: on the 1x1 universe produced by `new(1, 1)` (its
single cell is `Alive`), `live_neighbor_count(0, 0)` is `5` — the deltas
`height - 1` and `width - 1` collapse to `0`, so four of the nine offset
pairs are skipped by the `(0, 0)` test instead of one — while the
specification's 8-neighbor toroidal count is `8`.  The claim, which
requires only `width > 0` and `height > 0`, therefore fails here. -/
theorem claim_C2_counterexample :
    0 < (Universe.new 1 1).width ∧ 0 < (Universe.new 1 1).height ∧
    (Universe.new 1 1).live_neighbor_count 0 0 = 5 ∧
    toroidal_count (Universe.new 1 1) 0 0 = 8 := by decide

/-- C2 (amended): for every representable universe with `width ≥ 2` and
`height ≥ 2` and every in-range `(row, col)`, `live_neighbor_count`
equals the number of `Alive` cells among the 8 toroidal neighbors
`((row + dr) mod height, (col + dc) mod width)`, `(dr, dc)` ranging over
`{-1, 0, +1}^2` minus `(0, 0)`. -/
theorem claim_C2_neighbor_count (u : Universe) (hw : 2 ≤ u.width)
    (hh : 2 ≤ u.height) (hfit : u.width * u.height < U32)
    (row col : Nat) (hr : row < u.height) (hc : col < u.width) :
    u.live_neighbor_count row col = toroidal_count u row col := by
  have hh0 : 0 < u.height := by omega
  have hw0 : 0 < u.width := by omega
  have hhU : 2 * u.height ≤ u.width * u.height := Nat.mul_le_mul_right _ hw
  have hwU : u.width * 2 ≤ u.width * u.height := Nat.mul_le_mul_left _ hh
  have hA : (row + (u.height - 1)) % U32 = row + (u.height - 1) :=
    Nat.mod_eq_of_lt (by omega)
  have hB : (row + 0) % U32 = row + 0 := Nat.mod_eq_of_lt (by omega)
  have hC : (row + 1) % U32 = row + 1 := Nat.mod_eq_of_lt (by omega)
  have hD : (col + (u.width - 1)) % U32 = col + (u.width - 1) :=
    Nat.mod_eq_of_lt (by omega)
  have hE : (col + 0) % U32 = col + 0 := Nat.mod_eq_of_lt (by omega)
  have hF : (col + 1) % U32 = col + 1 := Nat.mod_eq_of_lt (by omega)
  have e1 : (((row : Int) + -1) % (u.height : Int)).toNat =
      (row + (u.height - 1)) % u.height := toNat_emod_sub_one row u.height hh0 hr
  have e2 : (((row : Int) + 0) % (u.height : Int)).toNat = (row + 0) % u.height :=
    toNat_emod_add_zero row u.height
  have e3 : (((row : Int) + 1) % (u.height : Int)).toNat = (row + 1) % u.height :=
    toNat_emod_add_one row u.height
  have e4 : (((col : Int) + -1) % (u.width : Int)).toNat =
      (col + (u.width - 1)) % u.width := toNat_emod_sub_one col u.width hw0 hc
  have e5 : (((col : Int) + 0) % (u.width : Int)).toNat = (col + 0) % u.width :=
    toNat_emod_add_zero col u.width
  have e6 : (((col : Int) + 1) % (u.width : Int)).toNat = (col + 1) % u.width :=
    toNat_emod_add_one col u.width
  have gixm : ∀ a b : Nat,
      u.get_index (a % u.height) (b % u.width) =
        a % u.height * u.width + b % u.width := fun a b =>
    u.get_index_eq hfit _ _ (Nat.mod_lt _ hh0) (Nat.mod_lt _ hw0)
  have hx : u.height - 1 ≠ 0 := by omega
  have hy : u.width - 1 ≠ 0 := by omega
  unfold Universe.live_neighbor_count toroidal_count
  simp only [List.foldl_cons, List.foldl_nil]
  simp only [hx, hy, false_and, and_false, and_true, true_and,
    eq_self_iff_true, if_true, if_false, one_ne_zero, neg_eq_zero,
    ite_false, ite_true]
  simp only [hA, hB, hC, hD, hE, hF, e1, e2, e3, e4, e5, e6, gixm]

/-- Witness for C2 at the 3x3 all-`Dead`-except-`(0,0)` universe: the
diagonal wrap neighbor count at `(2, 2)` matches the toroidal count and
equals `1`. -/
theorem claim_C2_witness :
    corner3.live_neighbor_count 2 2 = toroidal_count corner3 2 2 ∧
    corner3.live_neighbor_count 2 2 = 1 :=
  ⟨claim_C2_neighbor_count corner3 (by decide) (by decide) (by decide) 2 2
    (by decide) (by decide), by decide⟩
